import Mathlib

/-!
Shallow embedding of `src/playlist.py` (a random M3U playlist builder) and
verification of its specification claims.

The file system, the dotenv configuration file, and the random number
generator are modelled as explicit parameters.  Pure fragments of the Python
code become Lean functions with the same names; the `main` control flow
becomes a function from those parameters to an observable outcome record.
-/

set_option maxHeartbeats 1000000

namespace Playlist

/-- `AUDIO_EXTENSIONS` (playlist.py line 14). -/
def AUDIO_EXTENSIONS : List String :=
  [".mp3", ".flac", ".wav", ".aac", ".ogg", ".m4a", ".wma"]

/-- ASCII model of Python `str.upper()`. -/
def upper (s : String) : String :=
  String.mk (s.data.map Char.toUpper)

/-- ASCII model of Python `str.lower()`. -/
def lower (s : String) : String :=
  String.mk (s.data.map Char.toLower)

/-- Index of the last dot in a list of characters, if any. -/
def lastDotIdx (cs : List Char) : Option Nat :=
  match cs.reverse.findIdx? (fun c => c == '.') with
  | none => none
  | some j => some (cs.length - 1 - j)

/-- Python `pathlib` name splitting: `Path(name).stem` and `Path(name).suffix`.
The suffix starts at the last dot provided that dot is neither the first nor
the last character of the name; otherwise the suffix is empty. -/
def splitName (name : String) : String × String :=
  let cs := name.data
  match lastDotIdx cs with
  | none => (name, "")
  | some i =>
    if 0 < i ∧ i < cs.length - 1 then (String.mk (cs.take i), String.mk (cs.drop i))
    else (name, "")

/-- POSIX `Path.is_absolute()`: the path begins with a slash. -/
def isAbsolute (p : String) : Bool :=
  match p.data with
  | [] => false
  | c :: _ => c == '/'

/-- Boolean lexicographic comparison of character lists, the executable
mirror of string comparison by code point. -/
def listLeB : List Char → List Char → Bool
  | [], _ => true
  | _ :: _, [] => false
  | a :: as, b :: bs =>
    if a < b then true else if b < a then false else listLeB as bs

/-- Boolean `a <= b` on strings (Python string comparison). -/
def strLeB (a b : String) : Bool :=
  listLeB a.data b.data

/-- Insert into a sorted list, keeping it sorted. -/
def insertStr (a : String) : List String → List String
  | [] => [a]
  | b :: rest => if strLeB a b then a :: b :: rest else b :: insertStr a rest

/-- Python `sorted` on strings (lexicographic insertion sort).  The lists we
sort are duplicate-free, and on those the sorted permutation is unique, so
this is exactly the Python result. -/
def sortStrs : List String → List String
  | [] => []
  | a :: rest => insertStr a (sortStrs rest)

/-- Python `", ".join(l)`. -/
def joinComma (l : List String) : String :=
  String.intercalate ", " l

/-- Resolution of a configured folder path (playlist.py lines 30-32): absolute
values are kept as given, relative values are joined below the directory the
script itself lives in.  `Path.resolve()` symlink normalisation is abstracted
as plain joining. -/
def resolvePath (scriptDir value : String) : String :=
  if isAbsolute value then value else scriptDir ++ "/" ++ value

/-- Python dict assignment `d[k] = v` on an association list whose keys are
unique: replace the value in place at an existing key, otherwise append the
new binding at the end (insertion order semantics of `dict`). -/
def dictInsert (d : List (String × String)) (k v : String) : List (String × String) :=
  match d with
  | [] => [(k, v)]
  | p :: rest => if p.1 = k then (k, v) :: rest else p :: dictInsert rest k v

/-- One iteration of the accumulation loop in `load_genres` (playlist.py
lines 28-33): skip falsy values, otherwise store the resolved path under the
uppercased key. -/
def loadStep (scriptDir : String) (d : List (String × String)) (kv : String × String) :
    List (String × String) :=
  if kv.2 ≠ "" then dictInsert d (upper kv.1) (resolvePath scriptDir kv.2) else d

/-- `load_genres` (playlist.py lines 18-37).  `env = none` models a missing
`.env` file; otherwise `env` carries the key/value pairs that `dotenv_values`
produced, with `""` standing for an empty or missing value (falsy in Python,
hence skipped).  A fatal `sys.exit` is the `Except.error` carrying the exit
status.  Nothing is printed on the success path. -/
def load_genres (scriptDir : String) (env : Option (List (String × String))) :
    Except Nat (List (String × String)) :=
  match env with
  | none => .error 1
  | some values =>
    let genres := values.foldl (loadStep scriptDir) []
    if genres.isEmpty then .error 1 else .ok genres

/-- The abstract file system seen by the script: folder existence, recursive
directory listing (`Path.rglob`), and the regular-file test. -/
structure FS where
  dirExists : String → Bool
  rglob : String → List String
  isFile : String → Bool

/-- `scan_audio_files` (playlist.py lines 48-54): keep the regular files whose
lower-cased `pathlib` suffix is a recognised audio extension. -/
def scan_audio_files (fs : FS) (folder : String) : List String :=
  (fs.rglob folder).filter
    (fun f => fs.isFile f && AUDIO_EXTENSIONS.contains (lower (splitName f).2))

/-- Python `genres[name]` on the association list (total here; `collect_songs`
only looks up validated keys). -/
def lookupD (d : List (String × String)) (k : String) : String :=
  match d.find? (fun p => p.1 == k) with
  | some p => p.2
  | none => ""

/-- Lookup returning an option, used to state dictionary theorems. -/
def lookupOpt (d : List (String × String)) (k : String) : Option String :=
  (d.find? (fun p => p.1 == k)).map Prod.snd

/-- The fatal diagnostic of `collect_songs` (playlist.py lines 63-64): the two
lines printed to stderr before `sys.exit(1)`. -/
structure CollectError where
  msg : String
  available : String
deriving DecidableEq

/-- Observable output of a successful `collect_songs` run: the collected song
paths, the warnings printed for missing folders, and the per-genre counts
printed for scanned folders. -/
structure CollectOut where
  songs : List String
  warnings : List String
  counts : List (String × Nat)
deriving DecidableEq

/-- The set of genre names `collect_songs` will process (playlist.py lines
59-67): the uppercased requested names when `requested` is truthy (a Python
set, hence duplicate-free), else every registry key. -/
def selectedGenres (genres : List (String × String)) (requested : Option (List String)) :
    List String :=
  match requested with
  | some req => if req.isEmpty then (genres.map Prod.fst).dedup else (req.map upper).dedup
  | none => (genres.map Prod.fst).dedup

/-- The warning printed for a genre whose folder is missing (line 73). -/
def folderWarning (name folder : String) : String :=
  "Warning: Folder for " ++ name ++ " does not exist: " ++ folder

/-- One iteration of the genre loop of `collect_songs` (lines 70-77). -/
def collectStep (fs : FS) (genres : List (String × String)) (acc : CollectOut)
    (name : String) : CollectOut :=
  let folder := lookupD genres name
  if fs.dirExists folder then
    let found := scan_audio_files fs folder
    { acc with songs := acc.songs ++ found, counts := acc.counts ++ [(name, found.length)] }
  else
    { acc with warnings := acc.warnings ++ [folderWarning name folder] }

/-- `collect_songs` (playlist.py lines 57-78). -/
def collect_songs (genres : List (String × String)) (fs : FS)
    (requested : Option (List String)) : Except CollectError CollectOut :=
  let keys := genres.map Prod.fst
  let selected := selectedGenres genres requested
  let unknown := selected.filter (fun g => !(keys.contains g))
  if unknown.isEmpty then
    .ok ((sortStrs selected).foldl (collectStep fs genres) ⟨[], [], []⟩)
  else
    .error ⟨"Error: Unknown genre(s): " ++ joinComma (sortStrs unknown),
            "Available: " ++ joinComma (sortStrs keys)⟩

/-- `write_m3u` (playlist.py lines 81-86): the full text written to the
playlist file, a fixed header line then each entry verbatim with a newline. -/
def write_m3u (entries : List String) : String :=
  "#EXTM3U\n" ++ String.join (entries.map (fun e => e ++ "\n"))

/-- Opening a file with mode `"w"` truncates: after the write, the contents at
`path` are exactly `content` whatever was there before; other paths keep their
previous contents. -/
def overwriteFile (files : String → Option String) (path content : String) :
    String → Option String :=
  fun p => if p = path then some content else files p

/-- The candidate tried at `counter` by the collision loop of
`unique_filename`: the f-string `stem ++ "_" ++ counter ++ suffix`. -/
def candName (name : String) (counter : Nat) : String :=
  (splitName name).1 ++ "_" ++ Nat.repr counter ++ (splitName name).2

/-- The `while` loop of `unique_filename` (playlist.py lines 94-97), with
explicit fuel.  `unique_filename` supplies fuel that is provably sufficient
(see `uf_go_eventually_free`), so the zero-fuel branch is unreachable. -/
def uf_go (existing : List String) (name : String) : Nat → Nat → String
  | counter, 0 => candName name counter
  | counter, fuel+1 =>
    let candidate := candName name counter
    if existing.contains candidate then uf_go existing name (counter + 1) fuel
    else candidate

/-- `unique_filename` (playlist.py lines 89-98); `existing` is the set of names
present in `target_dir`. -/
def unique_filename (existing : List String) (name : String) : String :=
  if existing.contains name then uf_go existing name 2 (existing.length + 1)
  else name

/-- The copy loop of `copy_to_directory` (playlist.py lines 104-110) acting on
base names: threads the set of names present in the target directory (both
pre-existing ones and those placed earlier in the same run, since the copy of
each file makes its destination name exist) and returns the final directory
contents paired with `copied_names`. -/
def copyLoop (existing : List String) (songs : List String) : List String × List String :=
  match songs with
  | [] => (existing, [])
  | s :: rest =>
    let destName := unique_filename existing s
    let out := copyLoop (existing ++ [destName]) rest
    (out.1, destName :: out.2)

/-- The base name of a path (Python `Path.name`): everything after the last
slash. -/
def baseName (p : String) : String :=
  String.mk ((p.data.reverse.takeWhile (fun c => c != '/')).reverse)

/-- `random.sample(songs, count)` draws `count` pairwise-distinct positions of
the list `songs` and returns the elements at those positions.  `idxs` is the
sequence of positions the generator chose; the theorems hypothesise exactly
what the library guarantees about it (distinct, in range, `count` of them). -/
def sample (songs : List String) (idxs : List Nat) : List String :=
  idxs.map (fun i => songs.getD i "")

/-- The parsed command line (playlist.py lines 119-142). -/
structure Args where
  genres : Option (List String)
  count : Option Int
  output : String
  copyTo : Option String
  listFlag : Bool

/-- Observable outcome of a `main` run: the process exit status, whether
`collect_songs` ran (folders were scanned), the clamping note if one was
printed, and the entry list written to the playlist file (none if the run
died before writing one). -/
structure MainOut where
  exitCode : Nat
  scanned : Bool
  note : Option String
  entries : Option (List String)
deriving DecidableEq

/-- The note printed when the requested count exceeds availability (line 165). -/
def noteText (count requested : Int) : String :=
  "Note: Only " ++ toString count ++ " files available (requested "
    ++ toString requested ++ ")."

/-- `main` (playlist.py lines 118-178) with its effects made explicit.
`env` is the parsed `.env` file (none if absent), `fs` the file system,
`idxs` the positions drawn by `random.sample`, and `targetExisting` the
initial contents of the `--copy-to` directory.  `parser.error` exits with
status 2, `sys.exit(1)` with status 1; a run that completes exits 0.
Python truthiness: `if args.copy_to:` is false for both `None` and `""`. -/
def mainRun (scriptDir : String) (env : Option (List (String × String))) (fs : FS)
    (args : Args) (idxs : List Nat) (targetExisting : List String) : MainOut :=
  match load_genres scriptDir env with
  | .error c => { exitCode := c, scanned := false, note := none, entries := none }
  | .ok genres =>
    if args.listFlag then
      { exitCode := 0, scanned := false, note := none, entries := none }
    else
      match args.count with
      | none => { exitCode := 2, scanned := false, note := none, entries := none }
      | some n =>
        if n < 1 then
          { exitCode := 2, scanned := false, note := none, entries := none }
        else
          match collect_songs genres fs args.genres with
          | .error _ => { exitCode := 1, scanned := true, note := none, entries := none }
          | .ok res =>
            if res.songs.isEmpty then
              { exitCode := 1, scanned := true, note := none, entries := none }
            else
              let avail : Int := (res.songs.length : Int)
              let count : Int := if n ≤ avail then n else avail
              let note := if count < n then some (noteText count n) else none
              let selected := sample res.songs idxs
              match args.copyTo with
              | some dir =>
                if dir = "" then
                  { exitCode := 0, scanned := true, note := note, entries := some selected }
                else
                  { exitCode := 0, scanned := true, note := note,
                    entries := some (copyLoop targetExisting (selected.map baseName)).2 }
              | none =>
                { exitCode := 0, scanned := true, note := note, entries := some selected }

/-- Decimal digit list of a natural number, the pure meaning of the fuelled
`Nat.toDigitsCore` used by `Nat.repr`. -/
def digitsRec (n : Nat) : List Char :=
  if h : n < 10 then [Nat.digitChar n]
  else digitsRec (n / 10) ++ [Nat.digitChar (n % 10)]
termination_by n
decreasing_by
  exact Nat.div_lt_self (by omega) (by omega)

/-- Numeric value of a decimal digit character (left inverse of
`Nat.digitChar` below 10). -/
def digitVal (c : Char) : Nat :=
  if c = '0' then 0 else
  if c = '1' then 1 else
  if c = '2' then 2 else
  if c = '3' then 3 else
  if c = '4' then 4 else
  if c = '5' then 5 else
  if c = '6' then 6 else
  if c = '7' then 7 else
  if c = '8' then 8 else
  if c = '9' then 9 else 10

/-- Evaluation of a decimal digit string. -/
def ofDigits (l : List Char) : Nat :=
  l.foldl (fun a c => 10 * a + digitVal c) 0

/-- The value that ends up in the registry for canonical key `K`: the last
configuration entry with a non-empty value whose uppercased key is `K`,
resolved.  Used to state the collapse behaviour of `load_genres`. -/
def lastWins (scriptDir : String) (l : List (String × String)) (K : String) :
    Option String :=
  ((l.filter (fun p => p.2 ≠ "" && upper p.1 == K)).getLast?).map
    (fun p => resolvePath scriptDir p.2)

/-- Per-genre contribution to the collected song list: the scan of the genre
folder when it exists, nothing otherwise. -/
def genreContribution (fs : FS) (genres : List (String × String)) (name : String) :
    List String :=
  if fs.dirExists (lookupD genres name) then scan_audio_files fs (lookupD genres name)
  else []

/-- Concrete registry fixture: two genres, scripted from the spec scenario. -/
def genresRJ : List (String × String) :=
  [("JAZZ", "/music/jazz"), ("ROCK", "/music/rock")]

/-- Concrete file-system fixture: the rock folder exists and holds three
audio files; every other folder (the jazz one included) is missing. -/
def fsRock : FS where
  dirExists := fun p => p == "/music/rock"
  rglob := fun p =>
    if p == "/music/rock" then
      ["/music/rock/a.mp3", "/music/rock/b.mp3", "/music/rock/c.mp3"]
    else []
  isFile := fun _ => true

/-- Concrete one-song environment for `main`-level witnesses: a `.env` with a
single relative mapping, and a folder holding exactly one audio file. -/
def fsOne : FS where
  dirExists := fun p => p == "/app/music"
  rglob := fun p => if p == "/app/music" then ["/app/music/a.mp3"] else []
  isFile := fun _ => true

/-- Like `fsOne` but the folder exists and holds no audio files at all. -/
def fsEmpty : FS where
  dirExists := fun p => p == "/app/music"
  rglob := fun _ => []
  isFile := fun _ => true

/-! ## Lemmas about the string order and `sortStrs` -/

theorem listLeB_iff_lex : ∀ as bs, listLeB as bs = true ↔ ¬ List.Lex (· < ·) bs as
  | [], bs => by
    simp only [listLeB]
    constructor
    · intro _ h; exact List.Lex.not_nil_right _ _ h
    · intro _; trivial
  | a :: as, [] => by
    simp only [listLeB]
    constructor
    · intro h; cases h
    · intro h; exact absurd List.Lex.nil h
  | a :: as, b :: bs => by
    simp only [listLeB]
    by_cases hab : a < b
    · simp only [if_pos hab, true_iff]
      intro h
      cases h with
      | cons h3 => exact absurd hab (lt_irrefl _)
      | rel h2 => exact absurd h2 (lt_asymm hab)
    · by_cases hba : b < a
      · simp only [if_neg hab, if_pos hba]
        constructor
        · intro h; cases h
        · intro h; exact absurd (List.Lex.rel hba) h
      · have heq : a = b := le_antisymm (not_lt.mp hba) (not_lt.mp hab)
        subst heq
        simp only [if_neg hab, if_neg hba]
        rw [listLeB_iff_lex as bs]
        constructor
        · intro h hl
          cases hl with
          | cons h3 => exact absurd h3 h
          | rel h2 => exact absurd h2 hab
        · intro h hl
          exact h (List.Lex.cons hl)

theorem strLeB_iff (a b : String) : strLeB a b = true ↔ a ≤ b := by
  rw [← not_lt, String.lt_iff_toList_lt]
  constructor
  · intro h hlt; exact (listLeB_iff_lex a.data b.data).mp h hlt
  · intro h; exact (listLeB_iff_lex a.data b.data).mpr h

theorem strLeB_of_not (a b : String) (h : ¬ strLeB a b = true) : strLeB b a = true := by
  rw [strLeB_iff] at h ⊢
  exact (le_total a b).resolve_left h

theorem insertStr_perm (a : String) :
    ∀ l : List String, List.Perm (insertStr a l) (a :: l)
  | [] => List.Perm.refl _
  | b :: rest => by
    simp only [insertStr]
    by_cases h : strLeB a b = true
    · rw [if_pos h]
    · rw [if_neg h]
      exact ((insertStr_perm a rest).cons b).trans (List.Perm.swap a b rest)

theorem mem_insertStr {x a : String} {l : List String} :
    x ∈ insertStr a l ↔ x = a ∨ x ∈ l := by
  rw [(insertStr_perm a l).mem_iff, List.mem_cons]

theorem sorted_insertStr (a : String) :
    ∀ l : List String, l.Sorted (· ≤ ·) → (insertStr a l).Sorted (· ≤ ·)
  | [], _ => List.sorted_singleton a
  | b :: rest, h => by
    simp only [insertStr]
    rcases List.sorted_cons.mp h with ⟨hb, hrest⟩
    by_cases hab : strLeB a b = true
    · rw [if_pos hab]
      refine List.sorted_cons.mpr ⟨?_, h⟩
      intro x hx
      rcases List.mem_cons.mp hx with rfl | hx
      · exact (strLeB_iff a x).mp hab
      · exact le_trans ((strLeB_iff a b).mp hab) (hb x hx)
    · rw [if_neg hab]
      refine List.sorted_cons.mpr ⟨?_, sorted_insertStr a rest hrest⟩
      intro x hx
      rcases mem_insertStr.mp hx with rfl | hx
      · exact (strLeB_iff b x).mp (strLeB_of_not x b hab)
      · exact hb x hx

theorem sortStrs_perm : ∀ l : List String, List.Perm (sortStrs l) l
  | [] => List.Perm.refl _
  | a :: rest => by
    simp only [sortStrs]
    exact (insertStr_perm a (sortStrs rest)).trans ((sortStrs_perm rest).cons a)

theorem sortStrs_sorted : ∀ l : List String, (sortStrs l).Sorted (· ≤ ·)
  | [] => List.sorted_nil
  | a :: rest => sorted_insertStr a (sortStrs rest) (sortStrs_sorted rest)

/-! ## Injectivity of `Nat.repr` -/

theorem digitsRec_eq (n : Nat) :
    digitsRec n =
      if n < 10 then [Nat.digitChar n] else digitsRec (n / 10) ++ [Nat.digitChar (n % 10)] := by
  rw [digitsRec]
  split <;> rfl

theorem toDigitsCore_eq_digitsRec :
    ∀ (fuel n : Nat) (ds : List Char), n < fuel →
      Nat.toDigitsCore 10 fuel n ds = digitsRec n ++ ds := by
  intro fuel
  induction fuel with
  | zero => intro n ds h; omega
  | succ f ih =>
    intro n ds h
    simp only [Nat.toDigitsCore]
    by_cases h10 : n / 10 = 0
    · have hn : n < 10 := by omega
      rw [if_pos h10, digitsRec_eq, if_pos hn, Nat.mod_eq_of_lt hn]
      rfl
    · have hdiv : n / 10 < n := Nat.div_lt_self (by omega) (by omega)
      have hn10 : ¬ n < 10 := by omega
      rw [if_neg h10, ih (n / 10) _ (by omega)]
      conv_rhs => rw [digitsRec_eq, if_neg hn10]
      simp

theorem digitVal_digitChar {d : Nat} (h : d < 10) : digitVal (Nat.digitChar d) = d := by
  interval_cases d <;> rfl

theorem ofDigits_append_singleton (l : List Char) (c : Char) :
    ofDigits (l ++ [c]) = 10 * ofDigits l + digitVal c := by
  simp [ofDigits, List.foldl_append]

theorem ofDigits_digitsRec (n : Nat) : ofDigits (digitsRec n) = n := by
  induction n using Nat.strong_induction_on with
  | _ n ih =>
    rw [digitsRec_eq]
    by_cases h : n < 10
    · rw [if_pos h]
      simp [ofDigits, digitVal_digitChar h]
    · rw [if_neg h, ofDigits_append_singleton,
        ih (n / 10) (Nat.div_lt_self (by omega) (by omega)),
        digitVal_digitChar (Nat.mod_lt n (by omega))]
      omega

theorem digitsRec_inj {m n : Nat} (h : digitsRec m = digitsRec n) : m = n := by
  have := congrArg ofDigits h
  rwa [ofDigits_digitsRec, ofDigits_digitsRec] at this

theorem repr_data (n : Nat) : (Nat.repr n).data = digitsRec n := by
  show (Nat.toDigits 10 n).asString.data = digitsRec n
  rw [Nat.toDigits, toDigitsCore_eq_digitsRec (n + 1) n [] (Nat.lt_succ_self n)]
  simp [List.asString]

theorem nat_repr_inj {m n : Nat} (h : Nat.repr m = Nat.repr n) : m = n := by
  apply digitsRec_inj
  rw [← repr_data, ← repr_data, h]

theorem candName_inj {name : String} {j k : Nat} (h : candName name j = candName name k) :
    j = k := by
  apply nat_repr_inj
  apply String.ext
  have hd := congrArg String.data h
  simp only [candName, String.data_append] at hd
  have h1 := List.append_cancel_right hd
  exact List.append_cancel_left h1

/-! ## The collision loop of `unique_filename` -/

theorem uf_go_spec (existing : List String) (name : String) :
    ∀ (fuel counter : Nat),
      (∃ j, j < fuel ∧ candName name (counter + j) ∉ existing) →
      ∃ k, counter ≤ k ∧ candName name k ∉ existing ∧
        uf_go existing name counter fuel = candName name k ∧
        ∀ m, counter ≤ m → m < k → candName name m ∈ existing
  | 0, counter, h => by
    obtain ⟨j, hj, _⟩ := h
    omega
  | fuel+1, counter, h => by
    simp only [uf_go]
    by_cases hc : existing.contains (candName name counter) = true
    · rw [if_pos hc]
      obtain ⟨j, hj, hfree⟩ := h
      have hj0 : j ≠ 0 := by
        rintro rfl
        exact hfree (List.elem_iff.mp hc)
      obtain ⟨k, hk1, hk2, hk3, hk4⟩ :=
        uf_go_spec existing name fuel (counter + 1)
          ⟨j - 1, by omega, by
            have hje : counter + 1 + (j - 1) = counter + j := by omega
            rw [hje]; exact hfree⟩
      refine ⟨k, by omega, hk2, hk3, fun m hm1 hm2 => ?_⟩
      rcases Nat.eq_or_lt_of_le hm1 with rfl | hlt
      · exact List.elem_iff.mp hc
      · exact hk4 m hlt hm2
    · rw [if_neg hc]
      refine ⟨counter, Nat.le_refl _, fun hmem => hc (List.elem_iff.mpr hmem), rfl,
        fun m hm1 hm2 => ?_⟩
      omega

theorem exists_free_candidate (existing : List String) (name : String) (counter : Nat) :
    ∃ j, j ≤ existing.length ∧ candName name (counter + j) ∉ existing := by
  by_contra hcon
  push_neg at hcon
  have hnodup :
      ((List.range (existing.length + 1)).map (fun j => candName name (counter + j))).Nodup := by
    refine List.Nodup.map ?_ (List.nodup_range _)
    intro x y hxy
    have := candName_inj hxy
    omega
  have hsub :
      ((List.range (existing.length + 1)).map (fun j => candName name (counter + j)))
        ⊆ existing := by
    intro x hx
    obtain ⟨j, hj, rfl⟩ := List.mem_map.mp hx
    have hj2 := List.mem_range.mp hj
    exact hcon j (by omega)
  have hlen := (List.subperm_of_subset hnodup hsub).length_le
  simp only [List.length_map, List.length_range] at hlen
  omega

/-- C9: for every (finite) list of directory entries, `unique_filename` is a
total function (the embedding supplies fuel that lemma `uf_go_spec` proves
sufficient, so the bounded search never exhausts), its result names no entry
that existed in the directory at the time of the call, and a candidate base
name that is not already taken is returned unchanged. -/
theorem c9_unique_filename_total_and_fresh (existing : List String) (name : String) :
    unique_filename existing name ∉ existing ∧
      (name ∉ existing → unique_filename existing name = name) := by
  constructor
  · unfold unique_filename
    by_cases hc : existing.contains name = true
    · rw [if_pos hc]
      obtain ⟨j, hj, hfree⟩ := exists_free_candidate existing name 2
      obtain ⟨k, _, hk2, hk3, _⟩ :=
        uf_go_spec existing name (existing.length + 1) 2 ⟨j, by omega, hfree⟩
      rw [hk3]
      exact hk2
    · rw [if_neg hc]
      exact fun hmem => hc (List.elem_iff.mpr hmem)
  · intro hmem
    unfold unique_filename
    rw [if_neg (fun hc => hmem (List.elem_iff.mp hc))]

theorem c9_witness :
    unique_filename ["a.mp3"] "b.mp3" ∉ ["a.mp3"] ∧
      unique_filename ["a.mp3"] "b.mp3" = "b.mp3" :=
  ⟨(c9_unique_filename_total_and_fresh ["a.mp3"] "b.mp3").1,
   (c9_unique_filename_total_and_fresh ["a.mp3"] "b.mp3").2 (by decide)⟩

/-- C3: when the candidate base name is already taken in the target directory,
`unique_filename` returns the first free suffixed candidate
`stem_k.suffix`, counting up from `k = 2` (every smaller suffixed candidate
from 2 on is taken); copying two more files named "song.mp3" into a directory
already holding "song.mp3" yields "song_2.mp3" then "song_3.mp3", and the
run-local tracking also holds in an initially empty directory, where two
copies of "song.mp3" yield "song.mp3" then "song_2.mp3". -/
theorem c3_collision_suffix_policy (existing : List String) (name : String)
    (h : name ∈ existing) :
    (∃ k, 2 ≤ k ∧ candName name k ∉ existing ∧
        unique_filename existing name = candName name k ∧
        ∀ j, 2 ≤ j → j < k → candName name j ∈ existing) ∧
      (copyLoop ["song.mp3"] ["song.mp3", "song.mp3"]).2 = ["song_2.mp3", "song_3.mp3"] ∧
      (copyLoop [] ["song.mp3", "song.mp3"]).2 = ["song.mp3", "song_2.mp3"] := by
  refine ⟨?_, by decide, by decide⟩
  unfold unique_filename
  rw [if_pos (List.elem_iff.mpr h)]
  obtain ⟨j, hj, hfree⟩ := exists_free_candidate existing name 2
  obtain ⟨k, hk1, hk2, hk3, hk4⟩ :=
    uf_go_spec existing name (existing.length + 1) 2 ⟨j, by omega, hfree⟩
  exact ⟨k, hk1, hk2, hk3, hk4⟩

theorem c3_witness :
    ("song.mp3" ∈ ["song.mp3"]) ∧
      ((∃ k, 2 ≤ k ∧ candName "song.mp3" k ∉ ["song.mp3"] ∧
          unique_filename ["song.mp3"] "song.mp3" = candName "song.mp3" k ∧
          ∀ j, 2 ≤ j → j < k → candName "song.mp3" j ∈ ["song.mp3"]) ∧
        (copyLoop ["song.mp3"] ["song.mp3", "song.mp3"]).2 = ["song_2.mp3", "song_3.mp3"] ∧
        (copyLoop [] ["song.mp3", "song.mp3"]).2 = ["song.mp3", "song_2.mp3"]) :=
  ⟨by decide, c3_collision_suffix_policy ["song.mp3"] "song.mp3" (by decide)⟩

/-! ## The playlist writer -/

theorem string_join_cons (x : String) (l : List String) :
    String.join (x :: l) = x ++ String.join l := by
  apply String.ext
  rw [String.join_eq, String.join_eq]
  simp

/-- C4: the playlist writer emits the fixed `#EXTM3U` header line followed by
one entry per line, each written verbatim with a newline terminator; the write
replaces whatever content the target path previously had (mode "w" truncates)
and touches no other path; writing the entries ["a.mp3", "b.mp3"] produces
exactly the text `#EXTM3U\na.mp3\nb.mp3\n`. -/
theorem c4_write_m3u_format (files : String → Option String) (path : String)
    (entries : List String) :
    overwriteFile files path (write_m3u entries) path = some (write_m3u entries) ∧
      (∀ p, p ≠ path → overwriteFile files path (write_m3u entries) p = files p) ∧
      write_m3u ["a.mp3", "b.mp3"] = "#EXTM3U\na.mp3\nb.mp3\n" ∧
      ∀ e rest, write_m3u (e :: rest) =
        "#EXTM3U\n" ++ (e ++ "\n") ++ String.join (rest.map (fun x => x ++ "\n")) := by
  refine ⟨by simp [overwriteFile], fun p hp => by simp [overwriteFile, hp], by decide,
    fun e rest => ?_⟩
  apply String.ext
  simp [write_m3u, string_join_cons]

theorem c4_witness :
    overwriteFile (fun _ => none) "playlist.m3u" (write_m3u ["x.mp3"]) "playlist.m3u"
        = some (write_m3u ["x.mp3"]) ∧
      overwriteFile (fun _ => none) "playlist.m3u" (write_m3u ["x.mp3"]) "other" = none :=
  ⟨(c4_write_m3u_format (fun _ => none) "playlist.m3u" ["x.mp3"]).1,
   (c4_write_m3u_format (fun _ => none) "playlist.m3u" ["x.mp3"]).2.1 "other" (by decide)⟩

/-! ## The genre registry -/

theorem mem_dictInsert {kv : String × String} {k v : String} :
    ∀ {d : List (String × String)}, kv ∈ dictInsert d k v → kv ∈ d ∨ kv = (k, v)
  | [], h => by
    simp only [dictInsert, List.mem_singleton] at h
    exact Or.inr h
  | p :: rest, h => by
    simp only [dictInsert] at h
    by_cases hp : p.1 = k
    · rw [if_pos hp] at h
      rcases List.mem_cons.mp h with rfl | h
      · exact Or.inr rfl
      · exact Or.inl (List.mem_cons_of_mem p h)
    · rw [if_neg hp] at h
      rcases List.mem_cons.mp h with rfl | h
      · exact Or.inl (List.mem_cons_self _ _)
      · rcases mem_dictInsert h with h | h
        · exact Or.inl (List.mem_cons_of_mem p h)
        · exact Or.inr h

theorem lookupOpt_dictInsert_self (k v : String) :
    ∀ d : List (String × String), lookupOpt (dictInsert d k v) k = some v
  | [] => by simp [dictInsert, lookupOpt, List.find?]
  | p :: rest => by
    simp only [dictInsert]
    by_cases hp : p.1 = k
    · simp [if_pos hp, lookupOpt, List.find?]
    · rw [if_neg hp]
      have hbeq : (p.1 == k) = false := beq_eq_false_iff_ne.mpr hp
      simp only [lookupOpt, List.find?, hbeq]
      exact lookupOpt_dictInsert_self k v rest

theorem lookupOpt_dictInsert_other {K k : String} (hne : K ≠ k) (v : String) :
    ∀ d : List (String × String), lookupOpt (dictInsert d k v) K = lookupOpt d K
  | [] => by
    have hbeq : (k == K) = false := beq_eq_false_iff_ne.mpr (Ne.symm hne)
    simp [dictInsert, lookupOpt, List.find?, hbeq]
  | p :: rest => by
    simp only [dictInsert]
    by_cases hp : p.1 = k
    · have hbeq : (k == K) = false := beq_eq_false_iff_ne.mpr (Ne.symm hne)
      have hbeq2 : (p.1 == K) = false := by
        rw [hp]; exact hbeq
      simp [lookupOpt, List.find?, hbeq, hbeq2, if_pos hp]
    · rw [if_neg hp]
      by_cases hpK : p.1 = K
      · have hbeq : (p.1 == K) = true := beq_iff_eq.mpr hpK
        simp [lookupOpt, List.find?, hbeq]
      · have hbeq : (p.1 == K) = false := beq_eq_false_iff_ne.mpr hpK
        simp only [lookupOpt, List.find?, hbeq]
        exact lookupOpt_dictInsert_other hne v rest

theorem mem_keys_dictInsert {x k v : String} :
    ∀ {d : List (String × String)},
      x ∈ (dictInsert d k v).map Prod.fst ↔ x ∈ d.map Prod.fst ∨ x = k
  | [] => by simp [dictInsert]
  | p :: rest => by
    simp only [dictInsert]
    by_cases hp : p.1 = k
    · rw [if_pos hp]
      simp only [List.map_cons, List.mem_cons, hp]
      tauto
    · rw [if_neg hp]
      simp only [List.map_cons, List.mem_cons, mem_keys_dictInsert]
      tauto

theorem nodup_keys_dictInsert {k v : String} :
    ∀ {d : List (String × String)},
      (d.map Prod.fst).Nodup → ((dictInsert d k v).map Prod.fst).Nodup
  | [], _ => by simp [dictInsert]
  | p :: rest, h => by
    simp only [List.map_cons, List.nodup_cons] at h
    simp only [dictInsert]
    by_cases hp : p.1 = k
    · rw [if_pos hp]
      simp only [List.map_cons, List.nodup_cons]
      exact ⟨by rw [← hp]; exact h.1, h.2⟩
    · rw [if_neg hp]
      simp only [List.map_cons, List.nodup_cons, mem_keys_dictInsert]
      exact ⟨fun hc => hc.elim h.1 hp, nodup_keys_dictInsert h.2⟩

theorem load_fold_nodup (scriptDir : String) :
    ∀ (values acc : List (String × String)),
      (acc.map Prod.fst).Nodup →
      ((values.foldl (loadStep scriptDir) acc).map Prod.fst).Nodup
  | [], acc, h => h
  | v :: rest, acc, h => by
    simp only [List.foldl_cons]
    apply load_fold_nodup scriptDir rest
    simp only [loadStep]
    by_cases hv : v.2 ≠ ""
    · rw [if_pos hv]
      exact nodup_keys_dictInsert h
    · rw [if_neg hv]
      exact h

theorem load_fold_mem (scriptDir : String) :
    ∀ (values acc : List (String × String)) (kv : String × String),
      kv ∈ values.foldl (loadStep scriptDir) acc →
      kv ∈ acc ∨ ∃ p, p ∈ values ∧ p.2 ≠ "" ∧
        kv = (upper p.1, resolvePath scriptDir p.2)
  | [], acc, kv, h => Or.inl h
  | v :: rest, acc, kv, h => by
    simp only [List.foldl_cons] at h
    rcases load_fold_mem scriptDir rest (loadStep scriptDir acc v) kv h with h | ⟨p, hp, hp2, hp3⟩
    · simp only [loadStep] at h
      by_cases hv : v.2 ≠ ""
      · rw [if_pos hv] at h
        rcases mem_dictInsert h with h | h
        · exact Or.inl h
        · exact Or.inr ⟨v, List.mem_cons_self _ _, hv, h⟩
      · rw [if_neg hv] at h
        exact Or.inl h
    · exact Or.inr ⟨p, List.mem_cons_of_mem v hp, hp2, hp3⟩

theorem load_fold_all_empty (scriptDir : String) :
    ∀ values : List (String × String), (∀ kv ∈ values, kv.2 = "") →
      values.foldl (loadStep scriptDir) [] = []
  | [], _ => rfl
  | v :: rest, h => by
    simp only [List.foldl_cons, loadStep, h v (List.mem_cons_self _ _)]
    simp only [ne_eq, not_true_eq_false, if_false, ite_false]
    exact load_fold_all_empty scriptDir rest (fun kv hkv => h kv (List.mem_cons_of_mem v hkv))

theorem getLast?_cons_or {α : Type} : ∀ (xs : List α) (x : α),
    (x :: xs).getLast? = Option.or xs.getLast? (some x)
  | [], x => rfl
  | y :: ys, x => by
    rw [List.getLast?_cons_cons, getLast?_cons_or ys y]
    cases hys : ys.getLast? <;> simp [Option.or]

theorem option_map_or {α β : Type} (f : α → β) (a b : Option α) :
    (Option.or a b).map f = Option.or (a.map f) (b.map f) := by
  cases a <;> simp [Option.or]

theorem lastWins_cons (scriptDir : String) (v : String × String)
    (rest : List (String × String)) (K : String) :
    lastWins scriptDir (v :: rest) K =
      if (decide (v.2 ≠ "") && (upper v.1 == K)) = true then
        Option.or (lastWins scriptDir rest K) (some (resolvePath scriptDir v.2))
      else lastWins scriptDir rest K := by
  by_cases hc : (decide (v.2 ≠ "") && (upper v.1 == K)) = true
  · rw [if_pos hc]
    simp only [lastWins, List.filter_cons, hc, if_pos]
    rw [getLast?_cons_or, option_map_or]
    rfl
  · rw [if_neg hc]
    simp only [lastWins, List.filter_cons]
    rw [if_neg hc]

theorem load_fold_lookup (scriptDir : String) :
    ∀ (values acc : List (String × String)) (K : String),
      lookupOpt (values.foldl (loadStep scriptDir) acc) K =
        Option.or (lastWins scriptDir values K) (lookupOpt acc K)
  | [], acc, K => by simp [lastWins, Option.or]
  | v :: rest, acc, K => by
    simp only [List.foldl_cons]
    rw [load_fold_lookup scriptDir rest (loadStep scriptDir acc v) K, lastWins_cons]
    by_cases hv : v.2 ≠ ""
    · by_cases hK : upper v.1 = K
      · have hc : (decide (v.2 ≠ "") && (upper v.1 == K)) = true := by
          simp [hv, hK]
        rw [if_pos hc]
        have hstep : loadStep scriptDir acc v =
            dictInsert acc (upper v.1) (resolvePath scriptDir v.2) := by
          simp [loadStep, hv]
        rw [hstep]
        subst hK
        rw [lookupOpt_dictInsert_self, Option.or_assoc, Option.or_some]
      · have hc : (decide (v.2 ≠ "") && (upper v.1 == K)) = false := by
          simp only [Bool.and_eq_false_iff, decide_eq_false_iff_not, beq_eq_false_iff_ne]
          exact Or.inr hK
        rw [if_neg (by rw [hc]; simp)]
        have hstep : loadStep scriptDir acc v =
            dictInsert acc (upper v.1) (resolvePath scriptDir v.2) := by
          simp [loadStep, hv]
        rw [hstep, lookupOpt_dictInsert_other (fun h => hK h.symm) _ acc]
    · have hv2 : v.2 = "" := by simpa using hv
      have hc : (decide (v.2 ≠ "") && (upper v.1 == K)) = false := by
        simp [hv2]
      rw [if_neg (by rw [hc]; simp)]
      have hstep : loadStep scriptDir acc v = acc := by
        simp [loadStep, hv2]
      rw [hstep]

/-- C7: the registry load fails fatally (exit status 1) when the
configuration source is absent and when it yields zero usable mappings;
entries with empty values are skipped, so every binding of a successful load
comes from a non-empty-valued entry, carries the uppercased key, and holds
the resolved path, where absolute values are kept as given and relative
values are resolved against the installation directory (never the working
directory, which does not even occur). -/
theorem c7_load_genres_contract (scriptDir : String) :
    load_genres scriptDir none = .error 1 ∧
      (∀ values, (∀ kv ∈ values, kv.2 = "") →
        load_genres scriptDir (some values) = .error 1) ∧
      (∀ values d, load_genres scriptDir (some values) = .ok d →
        ∀ kv ∈ d, ∃ p, p ∈ values ∧ p.2 ≠ "" ∧
          kv.1 = upper p.1 ∧ kv.2 = resolvePath scriptDir p.2) ∧
      (∀ v, isAbsolute v = true → resolvePath scriptDir v = v) ∧
      (∀ v, isAbsolute v = false → resolvePath scriptDir v = scriptDir ++ "/" ++ v) := by
  refine ⟨rfl, ?_, ?_, ?_, ?_⟩
  · intro values hall
    simp [load_genres, load_fold_all_empty scriptDir values hall]
  · intro values d hload kv hkv
    have hd : d = values.foldl (loadStep scriptDir) [] := by
      simp only [load_genres] at hload
      split at hload
      · exact absurd hload (by simp)
      · exact (Except.ok.injEq _ _).mp hload.symm
    rw [hd] at hkv
    rcases load_fold_mem scriptDir values [] kv hkv with h | ⟨p, hp1, hp2, hp3⟩
    · exact absurd h (List.not_mem_nil kv)
    · exact ⟨p, hp1, hp2, by rw [hp3], by rw [hp3]⟩
  · intro v hv
    simp [resolvePath, hv]
  · intro v hv
    simp [resolvePath, hv]

theorem c7_witness :
    load_genres "/app" (some [("rock", "")]) = .error 1 ∧
      (∀ kv ∈ [("ROCK", "/app/music")], ∃ p, p ∈ [("rock", "music")] ∧ p.2 ≠ "" ∧
        kv.1 = upper p.1 ∧ kv.2 = resolvePath "/app" p.2) ∧
      resolvePath "/app" "music" = "/app" ++ "/" ++ "music" ∧
      resolvePath "/app" "/abs" = "/abs" :=
  ⟨(c7_load_genres_contract "/app").2.1 [("rock", "")] (by decide),
   (c7_load_genres_contract "/app").2.2.1 [("rock", "music")] [("ROCK", "/app/music")] rfl,
   (c7_load_genres_contract "/app").2.2.2.2 "music" (by decide),
   (c7_load_genres_contract "/app").2.2.2.1 "/abs" (by decide)⟩

/-- C10: a successful registry load always has pairwise-distinct (uppercased)
keys, and lookup of any canonical key returns the resolved value of the last
non-empty-valued configuration entry whose uppercased name is that key — so
entries whose names differ only in letter case collapse into one binding, the
later entry winning, with no diagnostic attached to the success path. -/
theorem c10_keys_unique_last_wins (scriptDir : String)
    (values d : List (String × String))
    (hload : load_genres scriptDir (some values) = .ok d) :
    (d.map Prod.fst).Nodup ∧ ∀ K, lookupOpt d K = lastWins scriptDir values K := by
  have hd : d = values.foldl (loadStep scriptDir) [] := by
    simp only [load_genres] at hload
    split at hload
    · exact absurd hload (by simp)
    · exact (Except.ok.injEq _ _).mp hload.symm
  subst hd
  constructor
  · exact load_fold_nodup scriptDir values [] List.nodup_nil
  · intro K
    rw [load_fold_lookup scriptDir values [] K]
    simp [lookupOpt, Option.or_none]

theorem c10_witness :
    (([("ROCK", "/b")] : List (String × String)).map Prod.fst).Nodup ∧
      ∀ K, lookupOpt [("ROCK", "/b")] K = lastWins "/app" [("Rock", "/a"), ("ROCK", "/b")] K :=
  c10_keys_unique_last_wins "/app" [("Rock", "/a"), ("ROCK", "/b")] [("ROCK", "/b")] rfl

/-! ## The song collector -/

theorem collect_fold (fs : FS) (genres : List (String × String)) :
    ∀ (names : List String) (acc : CollectOut),
      names.foldl (collectStep fs genres) acc =
        ⟨acc.songs ++ names.flatMap (genreContribution fs genres),
         acc.warnings ++ (names.filter (fun n => !(fs.dirExists (lookupD genres n)))).map
           (fun n => folderWarning n (lookupD genres n)),
         acc.counts ++ (names.filter (fun n => fs.dirExists (lookupD genres n))).map
           (fun n => (n, (scan_audio_files fs (lookupD genres n)).length))⟩
  | [], acc => by simp
  | n :: rest, acc => by
    simp only [List.foldl_cons]
    rw [collect_fold fs genres rest]
    by_cases h : fs.dirExists (lookupD genres n) = true
    · simp [collectStep, genreContribution, h, List.append_assoc]
    · simp [collectStep, genreContribution, h, List.append_assoc]

/-- C6: a successful collection processes the selected genres in sorted name
order; each selected genre whose folder is missing contributes no songs and
one warning, each existing one contributes its scan verbatim; the aggregate
is the order-preserving concatenation of those scans with nothing
de-duplicated. -/
theorem c6_collect_sorted_concat (genres : List (String × String)) (fs : FS)
    (requested : Option (List String)) (res : CollectOut)
    (h : collect_songs genres fs requested = .ok res) :
    List.Sorted (· ≤ ·) (sortStrs (selectedGenres genres requested)) ∧
      res.songs = (sortStrs (selectedGenres genres requested)).flatMap
        (genreContribution fs genres) ∧
      res.warnings = ((sortStrs (selectedGenres genres requested)).filter
          (fun n => !(fs.dirExists (lookupD genres n)))).map
        (fun n => folderWarning n (lookupD genres n)) := by
  have hres : res =
      (sortStrs (selectedGenres genres requested)).foldl (collectStep fs genres)
        ⟨[], [], []⟩ := by
    simp only [collect_songs] at h
    split at h
    · exact ((Except.ok.injEq _ _).mp h).symm
    · exact absurd h (by simp)
  subst hres
  rw [collect_fold]
  exact ⟨sortStrs_sorted _, by simp, by simp⟩

theorem c6_witness :
    collect_songs genresRJ fsRock none =
        .ok ⟨["/music/rock/a.mp3", "/music/rock/b.mp3", "/music/rock/c.mp3"],
             [folderWarning "JAZZ" "/music/jazz"], [("ROCK", 3)]⟩ ∧
      (List.Sorted (· ≤ ·) (sortStrs (selectedGenres genresRJ none)) ∧
        (["/music/rock/a.mp3", "/music/rock/b.mp3", "/music/rock/c.mp3"] : List String) =
          (sortStrs (selectedGenres genresRJ none)).flatMap
            (genreContribution fsRock genresRJ) ∧
        ([folderWarning "JAZZ" "/music/jazz"] : List String) =
          ((sortStrs (selectedGenres genresRJ none)).filter
              (fun n => !(fsRock.dirExists (lookupD genresRJ n)))).map
            (fun n => folderWarning n (lookupD genresRJ n))) :=
  ⟨rfl,
   c6_collect_sorted_concat genresRJ fsRock none
     ⟨["/music/rock/a.mp3", "/music/rock/b.mp3", "/music/rock/c.mp3"],
      [folderWarning "JAZZ" "/music/jazz"], [("ROCK", 3)]⟩ rfl⟩

/-- C5: when any requested genre name, uppercased, is missing from the
registry, the collector exits fatally (modelled as the error result, which
`main` turns into exit status 1) reporting the sorted offending names in its
"Unknown genre(s): ..." line together with the sorted full list of valid
names. -/
theorem c5_unknown_genres_fatal (genres : List (String × String)) (fs : FS)
    (req : List String) (scriptDir : String)
    (env : Option (List (String × String))) (args : Args) (idxs : List Nat)
    (targetExisting : List String) (n : Int)
    (hreq : req ≠ [])
    (hunknown : (req.map upper).dedup.filter
        (fun g => !((genres.map Prod.fst).contains g)) ≠ [])
    (hload : load_genres scriptDir env = .ok genres)
    (hlist : args.listFlag = false)
    (hcount : args.count = some n)
    (hn : 1 ≤ n)
    (hargs : args.genres = some req) :
    collect_songs genres fs (some req) =
        .error ⟨"Error: Unknown genre(s): " ++ joinComma (sortStrs
            ((req.map upper).dedup.filter
              (fun g => !((genres.map Prod.fst).contains g)))),
          "Available: " ++ joinComma (sortStrs (genres.map Prod.fst))⟩ ∧
      mainRun scriptDir env fs args idxs targetExisting =
        { exitCode := 1, scanned := true, note := none, entries := none } := by
  have hcollect : collect_songs genres fs (some req) =
      .error ⟨"Error: Unknown genre(s): " ++ joinComma (sortStrs
          ((req.map upper).dedup.filter
            (fun g => !((genres.map Prod.fst).contains g)))),
        "Available: " ++ joinComma (sortStrs (genres.map Prod.fst))⟩ := by
    have hsel : selectedGenres genres (some req) = (req.map upper).dedup := by
      simp [selectedGenres, hreq]
    simp only [collect_songs, hsel]
    rw [if_neg (by simp only [List.isEmpty_iff]; exact hunknown)]
  refine ⟨hcollect, ?_⟩
  simp only [mainRun, hload, hlist, hcount, hargs, hcollect]
  rw [if_neg (fun hf => Bool.false_ne_true hf), if_neg (by omega : ¬ n < 1)]

theorem c5_witness :
    collect_songs genresRJ fsRock (some ["POP"]) =
        .error ⟨"Error: Unknown genre(s): POP", "Available: JAZZ, ROCK"⟩ ∧
      mainRun "/app" (some [("jazz", "/music/jazz"), ("rock", "/music/rock")]) fsRock
          ⟨some ["POP"], some 1, "playlist.m3u", none, false⟩ [] [] =
        { exitCode := 1, scanned := true, note := none, entries := none } := by
  have h := c5_unknown_genres_fatal genresRJ fsRock ["POP"] "/app"
    (some [("jazz", "/music/jazz"), ("rock", "/music/rock")])
    ⟨some ["POP"], some 1, "playlist.m3u", none, false⟩ [] [] 1
    (by decide) (by decide) rfl rfl rfl (by decide) rfl
  exact ⟨by rw [h.1]; rfl, h.2⟩

/-! ## The sampler -/

theorem pairwise_pred {is : List Nat} (hp : is.Pairwise (· < ·))
    (hpos : ∀ j ∈ is, 0 < j) :
    (is.map (fun j => j - 1)).Pairwise (· < ·) := by
  rw [List.pairwise_map]
  refine List.Pairwise.imp_of_mem ?_ hp
  intro a b ha hb hab
  have := hpos a ha
  omega

theorem map_getD_sublist : ∀ (l : List String) (is : List Nat),
    is.Pairwise (· < ·) → (∀ i ∈ is, i < l.length) →
    List.Sublist (is.map (fun i => l.getD i "")) l
  | l, [], _, _ => List.nil_sublist l
  | [], i :: rest, _, hb => absurd (hb i (List.mem_cons_self _ _)) (by simp)
  | x :: xs, 0 :: rest, hp, hb => by
    have hpos : ∀ j ∈ rest, 0 < j := (List.pairwise_cons.mp hp).1
    simp only [List.map_cons, List.getD_cons_zero]
    apply List.Sublist.cons₂
    have hmap : rest.map (fun i => (x :: xs).getD i "") =
        (rest.map (fun j => j - 1)).map (fun i => xs.getD i "") := by
      rw [List.map_map]
      apply List.map_congr_left
      intro j hj
      obtain ⟨j2, rfl⟩ : ∃ j2, j = j2 + 1 := ⟨j - 1, by have := hpos j hj; omega⟩
      simp
    rw [hmap]
    apply map_getD_sublist xs
    · exact pairwise_pred (List.pairwise_cons.mp hp).2 hpos
    · intro i hi
      obtain ⟨j, hj, rfl⟩ := List.mem_map.mp hi
      have h1 := hb j (List.mem_cons_of_mem _ hj)
      have h2 := hpos j hj
      simp only [List.length_cons] at h1
      omega
  | x :: xs, (i+1) :: rest, hp, hb => by
    have hpos : ∀ j ∈ (i+1) :: rest, 0 < j := by
      intro j hj
      rcases List.mem_cons.mp hj with rfl | hj
      · omega
      · have := (List.pairwise_cons.mp hp).1 j hj
        omega
    have hmap : ((i+1) :: rest).map (fun k => (x :: xs).getD k "") =
        (((i+1) :: rest).map (fun j => j - 1)).map (fun k => xs.getD k "") := by
      rw [List.map_map]
      apply List.map_congr_left
      intro j hj
      obtain ⟨j2, rfl⟩ : ∃ j2, j = j2 + 1 := ⟨j - 1, by have := hpos j hj; omega⟩
      simp
    rw [hmap]
    apply List.Sublist.cons
    apply map_getD_sublist xs
    · exact pairwise_pred hp hpos
    · intro k hk
      obtain ⟨j, hj, rfl⟩ := List.mem_map.mp hk
      have h1 := hb j hj
      have h2 := hpos j hj
      simp only [List.length_cons] at h1
      omega

theorem sample_subperm (songs : List String) (idxs : List Nat)
    (hnd : idxs.Nodup) (hbound : ∀ i ∈ idxs, i < songs.length) :
    List.Subperm (sample songs idxs) songs := by
  have hperm : List.Perm (List.insertionSort (· ≤ ·) idxs) idxs :=
    List.perm_insertionSort _ _
  have hsorted : List.Sorted (· ≤ ·) (List.insertionSort (· ≤ ·) idxs) :=
    List.sorted_insertionSort _ _
  have hnd2 : (List.insertionSort (· ≤ ·) idxs).Nodup := hperm.nodup_iff.mpr hnd
  have hlt : (List.insertionSort (· ≤ ·) idxs).Pairwise (· < ·) :=
    hsorted.lt_of_le hnd2
  have hb2 : ∀ i ∈ List.insertionSort (· ≤ ·) idxs, i < songs.length := by
    intro i hi
    exact hbound i (hperm.mem_iff.mp hi)
  exact ⟨(List.insertionSort (· ≤ ·) idxs).map (fun i => songs.getD i ""),
    hperm.map _, map_getD_sublist songs _ hlt hb2⟩

/-- C1: for a non-empty song list and a requested count between 1 and the
list length, the sampler output has exactly `count` elements, every element
is drawn from the input list, the output uses each input list entry at most
once (it is a sub-permutation of the input, so duplicate paths are eligible
independently as distinct entries), and in particular the output has no
repeated song whenever the input entries are pairwise distinct. -/
theorem c1_sample_without_replacement (songs : List String) (idxs : List Nat)
    (count : Nat)
    (hne : songs ≠ [])
    (hc1 : 1 ≤ count) (hc2 : count ≤ songs.length)
    (hnd : idxs.Nodup) (hbound : ∀ i ∈ idxs, i < songs.length)
    (hlen : idxs.length = count) :
    (sample songs idxs).length = count ∧
      (∀ s ∈ sample songs idxs, s ∈ songs) ∧
      List.Subperm (sample songs idxs) songs ∧
      (songs.Nodup → (sample songs idxs).Nodup) := by
  have hsub : List.Subperm (sample songs idxs) songs := sample_subperm songs idxs hnd hbound
  refine ⟨by simp [sample, hlen], fun s hs => hsub.subset hs, hsub, fun hng => ?_⟩
  obtain ⟨l, hlp, hls⟩ := hsub
  exact hlp.nodup_iff.mp (hls.nodup hng)

theorem c1_witness :
    (["a", "b", "c"] : List String) ≠ [] ∧
      ([2, 0] : List Nat).Nodup ∧
      sample ["a", "b", "c"] [2, 0] = ["c", "a"] ∧
      (sample ["a", "b", "c"] [2, 0]).length = 2 ∧
      (∀ s ∈ sample ["a", "b", "c"] [2, 0], s ∈ ["a", "b", "c"]) ∧
      List.Subperm (sample ["a", "b", "c"] [2, 0]) ["a", "b", "c"] := by
  have h := c1_sample_without_replacement ["a", "b", "c"] [2, 0] 2
    (by decide) (by decide) (by decide) (by decide) (by decide) rfl
  exact ⟨by decide, by decide, rfl, h.1, h.2.1, h.2.2.1⟩

/-! ## The main control flow -/

theorem load_genres_error_code (scriptDir : String)
    (env : Option (List (String × String))) (c : Nat)
    (h : load_genres scriptDir env = .error c) : c = 1 := by
  cases env with
  | none =>
    simp only [load_genres, Except.error.injEq] at h
    exact h.symm
  | some values =>
    simp only [load_genres] at h
    split at h
    · simp only [Except.error.injEq] at h
      exact h.symm
    · exact absurd h (by simp)

/-- C8: when --list is not given, a missing count or a count below 1 is fatal
(exit status 2 from parser.error once the configuration loaded, status 1 if
even the configuration load failed first — non-zero either way), and the
validation happens before collection: collect_songs never runs, so no genre
folder is scanned. -/
theorem c8_count_validated_before_scan (scriptDir : String)
    (env : Option (List (String × String))) (fs : FS) (args : Args)
    (idxs : List Nat) (targetExisting : List String)
    (hlist : args.listFlag = false)
    (hbad : args.count = none ∨ ∃ n, args.count = some n ∧ n < 1) :
    (mainRun scriptDir env fs args idxs targetExisting).exitCode ≠ 0 ∧
      (mainRun scriptDir env fs args idxs targetExisting).scanned = false := by
  cases hload : load_genres scriptDir env with
  | error c =>
    have hc : c = 1 := load_genres_error_code scriptDir env c hload
    subst hc
    simp [mainRun, hload]
  | ok genres =>
    rcases hbad with hnone | ⟨n, hn, hlt⟩
    · simp [mainRun, hload, hlist, hnone]
    · simp [mainRun, hload, hlist, hn, if_pos hlt]

theorem c8_witness :
    ((⟨none, some 0, "playlist.m3u", none, false⟩ : Args).listFlag = false) ∧
      (mainRun "/app" (some [("rock", "music")]) fsOne
          ⟨none, some 0, "playlist.m3u", none, false⟩ [] []).exitCode ≠ 0 ∧
      (mainRun "/app" (some [("rock", "music")]) fsOne
          ⟨none, some 0, "playlist.m3u", none, false⟩ [] []).scanned = false :=
  ⟨rfl,
   c8_count_validated_before_scan "/app" (some [("rock", "music")]) fsOne
     ⟨none, some 0, "playlist.m3u", none, false⟩ [] [] rfl
     (Or.inr ⟨0, rfl, by decide⟩)⟩

/-- C2 counterexample: the claim quantifies over every song collection, but
with an empty collection (count 1 > 0 = collection size) the run is fatal:
it exits with status 1 and prints no clamping note, instead of returning the
(empty) full collection with a note and exit status zero. -/
theorem c2_counterexample :
    mainRun "/app" (some [("rock", "music")]) fsEmpty
        ⟨none, some 1, "playlist.m3u", none, false⟩ [] [] =
        { exitCode := 1, scanned := true, note := none, entries := none } ∧
      (mainRun "/app" (some [("rock", "music")]) fsEmpty
          ⟨none, some 1, "playlist.m3u", none, false⟩ [] []).exitCode ≠ 0 :=
  ⟨rfl, by decide⟩

/-- C2 (amended): for every NON-EMPTY collected song collection and a
requested count exceeding its size, the count is clamped to the size, the
note reporting the adjustment is printed, the run exits zero, and the
sampler returns exactly the full collection (as a permutation — the output
order is the random draw order). -/
theorem c2_clamp_note_exit_zero (scriptDir : String)
    (env : Option (List (String × String))) (fs : FS) (args : Args)
    (idxs : List Nat) (genres : List (String × String)) (res : CollectOut)
    (n : Int)
    (hload : load_genres scriptDir env = .ok genres)
    (hlist : args.listFlag = false)
    (hcount : args.count = some n)
    (hcollect : collect_songs genres fs args.genres = .ok res)
    (hne : res.songs ≠ [])
    (hgt : (res.songs.length : Int) < n)
    (hnd : idxs.Nodup) (hbound : ∀ i ∈ idxs, i < res.songs.length)
    (hlen : idxs.length = res.songs.length)
    (hcopy : args.copyTo = none) :
    mainRun scriptDir env fs args idxs [] =
        { exitCode := 0, scanned := true,
          note := some (noteText ((res.songs.length : Int)) n),
          entries := some (sample res.songs idxs) } ∧
      List.Perm (sample res.songs idxs) res.songs := by
  constructor
  · have hn1 : ¬ n < 1 := by omega
    have hemp : res.songs.isEmpty = false := List.isEmpty_eq_false.mpr hne
    have hle : ¬ n ≤ (res.songs.length : Int) := by omega
    simp only [mainRun, hload, hlist, hcount, hcollect, hemp, hcopy]
    rw [if_neg (fun hf => Bool.false_ne_true hf), if_neg hn1,
      if_neg (fun hf => Bool.false_ne_true hf), if_neg hle, if_pos hgt]
  · have hsub := sample_subperm res.songs idxs hnd hbound
    apply hsub.perm_of_length_le
    simp [sample, hlen]

theorem c2_witness :
    mainRun "/app" (some [("rock", "music")]) fsOne
        ⟨none, some 2, "playlist.m3u", none, false⟩ [0] [] =
        { exitCode := 0, scanned := true,
          note := some (noteText (((1 : Nat) : Int)) 2),
          entries := some (sample ["/app/music/a.mp3"] [0]) } ∧
      List.Perm (sample ["/app/music/a.mp3"] [0]) ["/app/music/a.mp3"] :=
  c2_clamp_note_exit_zero "/app" (some [("rock", "music")]) fsOne
    ⟨none, some 2, "playlist.m3u", none, false⟩ [0]
    [("ROCK", "/app/music")] ⟨["/app/music/a.mp3"], [], [("ROCK", 1)]⟩ 2
    rfl rfl rfl rfl (by decide) (by decide) (by decide) (by decide) rfl rfl

end Playlist
